import Mathlib

/-! Verification development for the folder_sync repository (src/sync.py).

The script performs a one-way sync of a Dropbox folder to a local directory:
`download_folder` walks the remote listing (with pagination), recursing into
folder entries and passing file entries to `handle_file`, which mirrors them
locally and accumulates the set of local paths still present remotely
(`current_paths`); `cleanup` deletes local files not in that set,
`delete_empty_folders` removes empty directories bottom-up, and `write_log` /
`prune_log` maintain the activity log.  (`handle_folder` is defined in the
source but never called.)

Modelling conventions used throughout:
* Instants of time are integers (epoch seconds; for the log-retention model,
  days).  A Python aware `datetime` is a pair (wall-clock value, UTC offset)
  whose absolute instant is `clock - offset`; comparison of aware datetimes
  compares absolute instants.  `dateutil.parser.parse` of an ISO-8601 string
  with offset yields such an aware value, and
  `datetime.fromtimestamp(m, tz=gettz())` yields the aware value
  `⟨m + tz, tz⟩` whose instant is `m`.
* The local file system's regular files are an association list from full
  path string to modification time.  `Path.write_bytes` sets the mtime to
  the current time `now` (a run is modelled as happening at one instant).
  Directories are tracked as a list of created path strings; `mkdir` with
  `parents=True, exist_ok=True` is modelled as inserting the directory path
  if absent (the intermediate ancestors are not individually tracked - no
  claim depends on them).
* HTTP responses are a status code (`Nat`) plus a body (`String`).  The
  script checks `res.status_code != 200`.
* A raised `DropboxAPIError` escaping `download_folder` is modelled by the
  `RunResult.apiError` constructor, which carries the state (log entries
  written so far) at the moment of the raise.
-/

namespace FolderSync

/-- An aware datetime: wall-clock reading plus UTC offset, both in seconds.
The absolute instant it denotes is `clock - offset`. -/
structure DTime where
  clock : Int
  offset : Int
deriving DecidableEq, Repr

/-- Absolute instant denoted by an aware datetime. -/
def DTime.instant (t : DTime) : Int := t.clock - t.offset

/-- The aware datetime produced by `datetime.fromtimestamp(mtime, tz=gettz())`
where `tz` is the local UTC offset: its instant is exactly `mtime`. -/
def local_aware (mtime tz : Int) : DTime := ⟨mtime + tz, tz⟩

/-- Lookup in the local file table (`Path.exists` / `Path.stat().st_mtime`). -/
def fsLookup : List (String × Int) → String → Option Int
  | [], _ => none
  | (q, m) :: rest, p => if q = p then some m else fsLookup rest p

/-- Write a file (`Path.write_bytes`): the mtime at path `p` becomes `t`. -/
def fsWrite : List (String × Int) → String → Int → List (String × Int)
  | [], p, t => [(p, t)]
  | (q, m) :: rest, p, t =>
      if q = p then (q, t) :: rest else (q, m) :: fsWrite rest p t

/-- Python `str.lstrip("/")`: drop every leading slash. -/
def lstripSlash (s : String) : String := ⟨s.data.dropWhile (fun c => c = '/')⟩

/-- Split a character list at slashes (the semantics of splitting a path
string on `"/"`; adjacent separators yield empty components). -/
def splitSlash : List Char → List (List Char)
  | [] => [[]]
  | c :: rest =>
      if c = '/' then [] :: splitSlash rest
      else
        match splitSlash rest with
        | [] => [[c]]
        | g :: gs => (c :: g) :: gs

/-- The `/`-components of a path string. -/
def splitSlashStr (s : String) : List String :=
  (splitSlash s.data).map (fun l => ⟨l⟩)

/-- Join path components back with slashes. -/
def joinSlash : List String → String
  | [] => ""
  | [x] => x
  | x :: xs => x ++ "/" ++ joinSlash xs

/-- The local path computed by the script:
`str(root_folder / dropbox_path.lstrip("/"))` (src/sync.py lines 90, 100).
`pathlib` joins textually; it does not resolve `..` components. -/
def localPathStr (root path_display : String) : String :=
  root ++ "/" ++ lstripSlash path_display

/-- The parent of a path string (`Path.parent`): drop the last `/`-component. -/
def parentStr (p : String) : String :=
  joinSlash ((splitSlashStr p).dropLast)

/-- Record a directory as existing (`mkdir(parents=True, exist_ok=True)`). -/
def pushDir (dirs : List String) (d : String) : List String :=
  if d ∈ dirs then dirs else dirs ++ [d]

/-- The per-file freshness decision of `handle_file` (src/sync.py lines
102-110): download when no local copy exists, otherwise when the parsed
`client_modified` aware datetime is strictly later than the aware local
mtime `datetime.fromtimestamp(st_mtime, tz=gettz())`. -/
def needs_download (tz : Int) (fs : List (String × Int)) (local_path : String)
    (client_modified : DTime) : Bool :=
  match fsLookup fs local_path with
  | none => true
  | some mtime => decide ((local_aware mtime tz).instant < client_modified.instant)

/-- Model of `download_file` (src/sync.py lines 73-81): the content fetch
returns `some content` when the response status is 200 and raises
`DropboxAPIError`, modelled as `none`, otherwise. -/
def download_file (dropbox_path : String) (status : Nat) (content : String) :
    Option String :=
  if status = 200 then some content else none

/-- State threaded through one reconcile run: local files (path ↦ mtime),
local directories, the accumulated keep set (`current_paths`), the log
messages written so far by `write_log`, and the number of `download_file`
calls made (download attempts). -/
structure St where
  fs : List (String × Int)
  dirs : List String
  keep : Finset String
  log : List String
  downloads : Nat
deriving DecidableEq

/-- Model of `handle_folder` (src/sync.py lines 89-93): compute the local
path; if it does not exist yet, log creation and create it.  (The log text
reproduces the source's literal `$` in `f"Creating new folder ${local_path}"`.)
This function is dead code in the source: `download_folder` never calls it -
folder entries only recurse, and local directories are created solely as
file parents inside `handle_file`.  It is modelled for completeness and is
not invoked by `run`. -/
def handle_folder (root : String) (st : St) (path_display : String) : St :=
  let local_path := localPathStr root path_display
  if local_path ∈ st.dirs then st
  else { st with log := st.log ++ ["Creating new folder $" ++ local_path],
                 dirs := pushDir st.dirs local_path }

/-- Model of `handle_file` (src/sync.py lines 96-120): compute the local
path, ensure the parent directory exists, decide freshness, then either
attempt the download (writing the file and logging on success, logging the
error and continuing on a raised `DropboxAPIError`) or log "up to date".
The local path is returned into the keep set unconditionally (the source's
final `return {str(local_path)}`); here the union into `current_paths`
performed by the caller is threaded through `St.keep`. -/
def handle_file (root : String) (now tz : Int) (st : St) (path_display : String)
    (client_modified : DTime) (status : Nat) (content : String) : St :=
  let local_path := localPathStr root path_display
  let st1 : St := { st with dirs := pushDir st.dirs (parentStr local_path) }
  let st2 : St :=
    if needs_download tz st1.fs local_path client_modified then
      match download_file path_display status content with
      | some _ =>
          { st1 with fs := fsWrite st1.fs local_path now,
                     log := st1.log ++ ["Saved " ++ local_path],
                     downloads := st1.downloads + 1 }
      | none =>
          { st1 with log := st1.log ++ ["Error downloading " ++ path_display],
                     downloads := st1.downloads + 1 }
    else
      { st1 with log := st1.log ++ [path_display ++ " up to date."] }
  { st2 with keep := st2.keep ∪ {local_path} }

/-- The remote tree as seen by `download_folder`.  Constructors encode the
three syntactic sorts the source iterates over:
* `file pd cm status content` - a `".tag" == "file"` entry together with the
  response its content fetch would get;
* `folder pd listing` - a `".tag" == "folder"` entry together with the
  paginated listing the recursive `download_folder(pd)` call would receive;
* `pnil` / `pcons status body entries rest` - the sequence of page responses
  of one folder listing: the first page is the `list_folder` response, later
  pages are `list_folder/continue` responses (`has_more` is true exactly
  while pages remain), each carrying its HTTP status and body;
* `enil` / `econs` - the `entries` array of one page.
-/
inductive R where
  | file (path_display : String) (client_modified : DTime) (status : Nat)
      (content : String) : R
  | folder (path_display : String) (listing : R) : R
  | pnil : R
  | pcons (status : Nat) (body : String) (entries : R) (rest : R) : R
  | enil : R
  | econs (entry : R) (rest : R) : R
deriving DecidableEq

/-- Outcome of a walk: normal return, or a raised `DropboxAPIError`
propagating out of `download_folder` with the side effects performed up to
the raise. -/
inductive RunResult where
  | ok (st : St) : RunResult
  | apiError (st : St) : RunResult
deriving DecidableEq

/-- Model of `download_folder` (src/sync.py lines 123-163) and its per-entry
dispatch.  Page sort: a non-200 listing/continuation response logs
`"Download folder error - <status>: <body>"` and raises `DropboxAPIError`;
a 200 response has its entries processed in order, then the next page.
Entry sort: a folder entry only recurses into the subfolder's listing (the
source's `download_folder(entry["path_display"], root_folder)`; it does not
call `handle_folder`); a file entry goes through `handle_file` (whose
`DropboxAPIError` is caught inside, so the walk continues). -/
def run (root : String) (now tz : Int) : R → St → RunResult
  | .file pd cm status content, st =>
      .ok (handle_file root now tz st pd cm status content)
  | .folder _ listing, st => run root now tz listing st
  | .pnil, st => .ok st
  | .pcons status body entries rest, st =>
      if status = 200 then
        match run root now tz entries st with
        | .ok st1 => run root now tz rest st1
        | .apiError st1 => .apiError st1
      else
        .apiError { st with log := st.log ++
          ["Download folder error - " ++ toString status ++ ": " ++ body] }
  | .enil, st => .ok st
  | .econs e rest, st =>
      match run root now tz e st with
      | .ok st1 => run root now tz rest st1
      | .apiError st1 => .apiError st1

/-- Model of `cleanup` (src/sync.py lines 39-45): walk every local file in
order; a file whose full path string is not in `current_paths` is logged
(`"Removed filed <p> - not found in Dropbox"`, reproducing the source's
typo) and deleted.  Returns the surviving files and the logged messages. -/
def cleanup (current_paths : Finset String) :
    List (String × Int) → List (String × Int) × List String
  | [] => ([], [])
  | (p, m) :: rest =>
      let r := cleanup current_paths rest
      if p ∈ current_paths then ((p, m) :: r.1, r.2)
      else (r.1, ("Removed filed " ++ p ++ " - not found in Dropbox") :: r.2)

/-- The `__main__` control flow relevant to error propagation
(src/sync.py lines 180-188): run `download_folder`; only on normal return
run `cleanup` against the returned keep set.  A raised `DropboxAPIError`
terminates the process before `cleanup` (the directory and log passes that
follow `cleanup` are modelled separately below). -/
def runMain (root : String) (now tz : Int) (tree : R) (st0 : St) : RunResult :=
  match run root now tz tree st0 with
  | .ok st =>
      let r := cleanup st.keep st.fs
      .ok { st with fs := r.1, log := st.log ++ r.2 }
  | .apiError st => .apiError st

/-- The local paths of all file entries of a remote tree: the value the keep
set accumulates over a complete walk. -/
def filePaths (root : String) : R → Finset String
  | .file pd _ _ _ => {localPathStr root pd}
  | .folder _ listing => filePaths root listing
  | .pnil => ∅
  | .pcons _ _ entries rest => filePaths root entries ∪ filePaths root rest
  | .enil => ∅
  | .econs e rest => filePaths root e ∪ filePaths root rest

/-- A remote tree on which a run at instant `now` is fully successful:
every listing page answers 200, every file fetch answers 200, and no remote
`client_modified` lies in the future of the run. -/
def goodR (now : Int) : R → Bool
  | .file _ cm status _ => decide (status = 200) && decide (cm.instant ≤ now)
  | .folder _ listing => goodR now listing
  | .pnil => true
  | .pcons status _ entries rest =>
      decide (status = 200) && goodR now entries && goodR now rest
  | .enil => true
  | .econs e rest => goodR now e && goodR now rest

/-- A remote tree all of whose listing pages answer 200. -/
def pagesOk : R → Bool
  | .file _ _ _ _ => true
  | .folder _ listing => pagesOk listing
  | .pnil => true
  | .pcons status _ entries rest =>
      decide (status = 200) && pagesOk entries && pagesOk rest
  | .enil => true
  | .econs e rest => pagesOk e && pagesOk rest

/-- Every file entry of the tree already has a local copy at least as new as
its remote `client_modified`: the post-state of a fully successful run. -/
def Sat (root : String) (fs : List (String × Int)) : R → Prop
  | .file pd cm _ _ =>
      ∃ m, fsLookup fs (localPathStr root pd) = some m ∧ cm.instant ≤ m
  | .folder _ listing => Sat root fs listing
  | .pnil => True
  | .pcons _ _ entries rest => Sat root fs entries ∧ Sat root fs rest
  | .enil => True
  | .econs e rest => Sat root fs e ∧ Sat root fs rest

/-- Between two file tables of one run at instant `now`, each path is either
untouched or was (re)written with mtime `now`. -/
def Mono (now : Int) (fs fs' : List (String × Int)) : Prop :=
  ∀ p, fsLookup fs' p = fsLookup fs p ∨ fsLookup fs' p = some now

/-! Path resolution.  `pathlib` joins path strings textually and keeps `..`
components; it is the operating system that resolves them when the path is
used (`mkdir`, `write_bytes`, `os.remove`).  `resolveSegs acc segs` models
that resolution: starting from the already-resolved absolute directory
`acc` (a list of components), a `..` component pops one component, `.` and
empty components are ignored, and any other component descends. -/

/-- Resolve path components against an already-resolved base directory. -/
def resolveSegs : List String → List String → List String
  | acc, [] => acc
  | acc, s :: rest =>
      if s = ".." then resolveSegs acc.dropLast rest
      else if s = "." ∨ s = "" then resolveSegs acc rest
      else resolveSegs (acc ++ [s]) rest

/-- The components of the relative portion the script joins under the sync
root: `path_display.lstrip("/")` split at slashes. -/
def pathSegments (path_display : String) : List String :=
  splitSlashStr (lstripSlash path_display)

/-- Where the local path computed for `path_display` actually lands on disk,
given the resolved components of the sync root. -/
def resolvedLocalPath (rootSegs : List String) (path_display : String) :
    List String :=
  resolveSegs rootSegs (pathSegments path_display)

/-- Resolve an absolute path string from the file-system root. -/
def resolvePathStr (p : String) : List String :=
  resolveSegs [] (splitSlashStr p)

/-! The directory tree and `delete_empty_folders` (src/sync.py lines 61-70).

`FTree` is a forest of directories in sibling-list form: `fcons name files
subs rest` is a directory `name` holding regular files `files` and
subdirectory forest `subs`, followed by its sibling directories `rest`.

`os.walk(root, topdown=False)` lists (`scandir`) each directory BEFORE
recursing into its subdirectories and yields the triple
`(dirpath, dirnames, filenames)` built from that listing only AFTER the
whole subtree has been yielded.  Removals performed by the loop body
(`os.rmdir`) therefore happen strictly inside already-walked subtrees, so
every triple shows the listing of the tree as it stood when the pass
started.  `walkPost` reproduces exactly that sequence of triples. -/

/-- A forest of local directories: name, regular files, subdirectories,
then sibling directories. -/
inductive FTree where
  | fnil : FTree
  | fcons (name : String) (files : List String) (subs : FTree) (rest : FTree) :
      FTree
deriving DecidableEq

/-- Names of the top-level directories of a forest (the `dirnames` list a
`scandir` of the parent captures). -/
def names : FTree → List String
  | .fnil => []
  | .fcons n _ _ rest => n :: names rest

/-- The `(dirpath, dirnames, filenames)` triples yielded by
`os.walk(root, topdown=False)` over the pass's initial tree, in yield
order: each directory's subtree first, then the directory itself, then its
siblings. -/
def walkPost (path : List String) : FTree → List (List String × List String × List String)
  | .fnil => []
  | .fcons n files subs rest =>
      walkPost (path ++ [n]) subs ++ [(path ++ [n], names subs, files)] ++
        walkPost path rest

/-- The loop body's test `if not (files or subdirs)` applied to one yielded
triple: return the directory path when both captured lists are empty. -/
def emptySel (w : List String × List String × List String) :
    Option (List String) :=
  if w.2.1 = [] ∧ w.2.2 = [] then some w.1 else none

/-- Model of `delete_empty_folders` (src/sync.py lines 61-70): the set of
directories removed (and logged) by the single bottom-up pass. -/
def delete_empty_folders (root : FTree) : List (List String) :=
  (walkPost [] root).filterMap emptySel

/-- A root-to-leaf chain of directories holding no files at all. -/
def chainT : List String → FTree
  | [] => .fnil
  | n :: rest => .fcons n [] (chainT rest) .fnil

/-! The log file (src/sync.py lines 48-58 and 84-86).

The file is modelled at line granularity: `lines` is the list of physical
lines and `trailing` records whether the content ends with a newline.  A
physical line is the list of events printed on it - `write_log` appends
`"<timestamp> - <message>\n"`, so a line holds several events exactly when
an append started on a line that has no terminating newline.  An event is a
pair (timestamp, message); the ISO-8601 timestamp rendering contains no
space and `dateutil.parser.parse` recovers it, so `line.split()[0]` parses
back the first event's timestamp.  Time is in days for this model, matching
the 30-day retention window `relativedelta(days=30)`. -/

/-- The log file: physical lines (each a list of the events printed on it)
and whether the content ends with a newline. -/
structure LogFile where
  lines : List (List (Int × String))
  trailing : Bool
deriving DecidableEq

/-- Append an element to the last line of a line list (what appending text
without a preceding newline does to a file not ending in a newline). -/
def appendToLast (l : List (List (Int × String))) (x : Int × String) :
    List (List (Int × String)) :=
  match l with
  | [] => [[x]]
  | [last] => [last ++ [x]]
  | h :: t => h :: appendToLast t x

/-- Model of `write_log` (src/sync.py lines 84-86): append
`"<now isoformat> - <msg>\n"` to the file.  If the existing content ends
with a newline (or the file is empty) this starts a fresh line; otherwise
the event lands on the file's current last line. -/
def write_log (now : Int) (msg : String) (f : LogFile) : LogFile :=
  if f.trailing then ⟨f.lines ++ [[(now, msg)]], true⟩
  else ⟨appendToLast f.lines (now, msg), true⟩

/-- The timestamp `dt_parse(line.split()[0])` recovers from a physical
line: the timestamp of the first event printed on it. -/
def headTs : List (Int × String) → Int
  | [] => 0
  | e :: _ => e.1

/-- Model of `prune_log` (src/sync.py lines 48-58): keep exactly the lines
whose leading timestamp is strictly newer than `now - 30` days, and rewrite
the file as `"\n".join(lines)` - which ends WITHOUT a trailing newline. -/
def prune_log (now : Int) (f : LogFile) : LogFile :=
  ⟨f.lines.filter (fun line => decide (now - 30 < headTs line)), false⟩

/-! Helper lemmas about the file table and the run. -/

theorem fsLookup_fsWrite (fs : List (String × Int)) (p : String) (t : Int)
    (x : String) :
    fsLookup (fsWrite fs p t) x = if p = x then some t else fsLookup fs x := by
  induction fs with
  | nil => simp [fsWrite, fsLookup]
  | cons hd rest ih =>
      obtain ⟨k, m⟩ := hd
      simp only [fsWrite]
      by_cases hk : k = p
      · subst hk
        simp only [if_pos rfl, fsLookup]
        by_cases hx : k = x <;> simp [hx]
      · simp only [if_neg hk, fsLookup, ih]
        by_cases hpx : p = x
        · subst hpx
          simp [hk]
        · simp [hpx]

theorem mono_refl (now : Int) (fs : List (String × Int)) : Mono now fs fs :=
  fun _ => Or.inl rfl

theorem mono_trans {now : Int} {a b c : List (String × Int)}
    (h1 : Mono now a b) (h2 : Mono now b c) : Mono now a c := by
  intro p
  rcases h2 p with h | h
  · rcases h1 p with h' | h'
    · exact Or.inl (h.trans h')
    · exact Or.inr (h.trans h')
  · exact Or.inr h

theorem mono_write (now : Int) (fs : List (String × Int)) (p : String) :
    Mono now fs (fsWrite fs p now) := by
  intro x
  rw [fsLookup_fsWrite]
  by_cases hx : p = x
  · exact Or.inr (if_pos hx)
  · exact Or.inl (if_neg hx)

theorem sat_mono {root : String} {now : Int} {fs fs' : List (String × Int)} :
    ∀ {r : R}, goodR now r = true → Sat root fs r → Mono now fs fs' →
      Sat root fs' r := by
  intro r
  induction r with
  | file pd cm status content =>
      intro hg hs hm
      simp only [goodR, Bool.and_eq_true, decide_eq_true_eq] at hg
      obtain ⟨m, hl, hle⟩ := hs
      rcases hm (localPathStr root pd) with h | h
      · exact ⟨m, h.trans hl, hle⟩
      · exact ⟨now, h, hg.2⟩
  | folder pd listing ih =>
      intro hg hs hm
      exact ih hg hs hm
  | pnil => intro _ _ _; trivial
  | pcons status body entries rest ihe ihr =>
      intro hg hs hm
      simp only [goodR, Bool.and_eq_true] at hg
      exact ⟨ihe hg.1.2 hs.1 hm, ihr hg.2 hs.2 hm⟩
  | enil => intro _ _ _; trivial
  | econs e rest ihe ihr =>
      intro hg hs hm
      simp only [goodR, Bool.and_eq_true] at hg
      exact ⟨ihe hg.1 hs.1 hm, ihr hg.2 hs.2 hm⟩

theorem goodR_pagesOk {now : Int} : ∀ {r : R}, goodR now r = true →
    pagesOk r = true := by
  intro r
  induction r with
  | file pd cm status content => intro _; rfl
  | folder pd listing ih => intro hg; exact ih hg
  | pnil => intro _; rfl
  | pcons status body entries rest ihe ihr =>
      intro hg
      simp only [goodR, Bool.and_eq_true] at hg
      simp only [pagesOk, Bool.and_eq_true]
      exact ⟨⟨hg.1.1, ihe hg.1.2⟩, ihr hg.2⟩
  | enil => intro _; rfl
  | econs e rest ihe ihr =>
      intro hg
      simp only [goodR, Bool.and_eq_true] at hg
      simp only [pagesOk, Bool.and_eq_true]
      exact ⟨ihe hg.1, ihr hg.2⟩

/-- When the file is already present with an mtime at least the remote
`client_modified`, `handle_file` takes the "up to date" branch: no download
attempt, no file write, path still added to the keep set. -/
theorem handle_file_skip (root : String) (now tz : Int) (st : St)
    (pd : String) (cm : DTime) (status : Nat) (content : String) (m : Int)
    (hm : fsLookup st.fs (localPathStr root pd) = some m)
    (hle : cm.instant ≤ m) :
    handle_file root now tz st pd cm status content =
      { st with dirs := pushDir st.dirs (parentStr (localPathStr root pd)),
                log := st.log ++ [pd ++ " up to date."],
                keep := st.keep ∪ {localPathStr root pd} } := by
  unfold handle_file
  have hnd : needs_download tz st.fs (localPathStr root pd) cm = false := by
    simp only [needs_download, hm, local_aware, DTime.instant,
      decide_eq_false_iff_not]
    simp only [DTime.instant] at hle
    omega
  simp [hnd]

/-- Characterization of one run on a fully successful remote tree: it
returns normally, only (re)writes files with mtime `now`, leaves every file
entry with a local copy at least as new as its remote timestamp, and adds
exactly the file entries' local paths to the keep set. -/
theorem run_good (root : String) (now tz : Int) (r : R) :
    ∀ st : St, goodR now r = true →
      ∃ st1, run root now tz r st = .ok st1 ∧ Mono now st.fs st1.fs ∧
        Sat root st1.fs r ∧ st1.keep = st.keep ∪ filePaths root r := by
  induction r with
  | file pd cm status content =>
      intro st hg
      simp only [goodR, Bool.and_eq_true, decide_eq_true_eq] at hg
      obtain ⟨hs, hcm⟩ := hg
      refine ⟨handle_file root now tz st pd cm status content, rfl, ?_⟩
      cases hl : fsLookup st.fs (localPathStr root pd) with
      | none =>
          have hnd : needs_download tz st.fs (localPathStr root pd) cm = true := by
            unfold needs_download; rw [hl]
          have hdl : download_file pd status content = some content := by
            simp [download_file, hs]
          unfold handle_file
          simp only [hnd, hdl, if_true]
          refine ⟨mono_write now st.fs _, ⟨now, ?_, hcm⟩, rfl⟩
          simp [fsLookup_fsWrite]
      | some m =>
          by_cases hfresh : m < cm.instant
          · have hnd : needs_download tz st.fs (localPathStr root pd) cm = true := by
              simp only [needs_download, hl, local_aware, DTime.instant,
                decide_eq_true_eq]
              simp only [DTime.instant] at hfresh
              omega
            have hdl : download_file pd status content = some content := by
              simp [download_file, hs]
            unfold handle_file
            simp only [hnd, hdl, if_true]
            refine ⟨mono_write now st.fs _, ⟨now, ?_, hcm⟩, rfl⟩
            simp [fsLookup_fsWrite]
          · rw [handle_file_skip root now tz st pd cm status content m hl
              (not_lt.mp hfresh)]
            exact ⟨mono_refl now st.fs, ⟨m, hl, not_lt.mp hfresh⟩, rfl⟩
  | folder pd listing ih =>
      intro st hg
      exact ih st hg
  | pnil =>
      intro st _
      exact ⟨st, rfl, mono_refl now st.fs, trivial, by simp [filePaths]⟩
  | pcons status body entries rest ihe ihr =>
      intro st hg
      simp only [goodR, Bool.and_eq_true, decide_eq_true_eq] at hg
      obtain ⟨⟨hs, hge⟩, hgr⟩ := hg
      obtain ⟨st1, h1, hm1, hs1, hk1⟩ := ihe st hge
      obtain ⟨st2, h2, hm2, hs2, hk2⟩ := ihr st1 hgr
      refine ⟨st2, ?_, mono_trans hm1 hm2, ⟨sat_mono hge hs1 hm2, hs2⟩, ?_⟩
      · simp only [run, hs, if_true, h1, h2]
      · rw [hk2, hk1, filePaths, Finset.union_assoc]
  | enil =>
      intro st _
      exact ⟨st, rfl, mono_refl now st.fs, trivial, by simp [filePaths]⟩
  | econs e rest ihe ihr =>
      intro st hg
      simp only [goodR, Bool.and_eq_true] at hg
      obtain ⟨st1, h1, hm1, hs1, hk1⟩ := ihe st hg.1
      obtain ⟨st2, h2, hm2, hs2, hk2⟩ := ihr st1 hg.2
      refine ⟨st2, ?_, mono_trans hm1 hm2, ⟨sat_mono hg.1 hs1 hm2, hs2⟩, ?_⟩
      · simp only [run, h1, h2]
      · rw [hk2, hk1, filePaths, Finset.union_assoc]

/-- Characterization of a run over a tree whose every file entry already has
a local copy at least as new as its remote timestamp: every listing page
succeeding, the run returns normally with the file table untouched, no
download attempted, and the keep set extended by exactly the file entries'
local paths. -/
theorem run_sat (root : String) (now tz : Int) (r : R) :
    ∀ st : St, pagesOk r = true → Sat root st.fs r →
      ∃ st2, run root now tz r st = .ok st2 ∧ st2.fs = st.fs ∧
        st2.downloads = st.downloads ∧ st2.keep = st.keep ∪ filePaths root r := by
  induction r with
  | file pd cm status content =>
      intro st _ hsat
      obtain ⟨m, hm, hle⟩ := hsat
      rw [show run root now tz (.file pd cm status content) st =
        .ok (handle_file root now tz st pd cm status content) from rfl,
        handle_file_skip root now tz st pd cm status content m hm hle]
      exact ⟨_, rfl, rfl, rfl, rfl⟩
  | folder pd listing ih =>
      intro st hp hsat
      exact ih st hp hsat
  | pnil =>
      intro st _ _
      exact ⟨st, rfl, rfl, rfl, by simp [filePaths]⟩
  | pcons status body entries rest ihe ihr =>
      intro st hp hsat
      simp only [pagesOk, Bool.and_eq_true, decide_eq_true_eq] at hp
      obtain ⟨⟨hs, hpe⟩, hpr⟩ := hp
      obtain ⟨st1, h1, hfs1, hd1, hk1⟩ := ihe st hpe hsat.1
      have hsat1 : Sat root st1.fs rest := by rw [hfs1]; exact hsat.2
      obtain ⟨st2, h2, hfs2, hd2, hk2⟩ := ihr st1 hpr hsat1
      refine ⟨st2, ?_, hfs2.trans hfs1, hd2.trans hd1, ?_⟩
      · simp only [run, hs, if_true, h1, h2]
      · rw [hk2, hk1, filePaths, Finset.union_assoc]
  | enil =>
      intro st _ _
      exact ⟨st, rfl, rfl, rfl, by simp [filePaths]⟩
  | econs e rest ihe ihr =>
      intro st hp hsat
      simp only [pagesOk, Bool.and_eq_true] at hp
      obtain ⟨st1, h1, hfs1, hd1, hk1⟩ := ihe st hp.1 hsat.1
      have hsat1 : Sat root st1.fs rest := by rw [hfs1]; exact hsat.2
      obtain ⟨st2, h2, hfs2, hd2, hk2⟩ := ihr st1 hp.2 hsat1
      refine ⟨st2, ?_, hfs2.trans hfs1, hd2.trans hd1, ?_⟩
      · simp only [run, h1, h2]
      · rw [hk2, hk1, filePaths, Finset.union_assoc]

theorem resolveSegs_extends (l : List String) :
    ∀ acc : List String, ".." ∉ l → acc <+: resolveSegs acc l := by
  induction l with
  | nil =>
      intro acc _
      exact List.prefix_rfl
  | cons s rest ih =>
      intro acc hl
      have hs : ¬ s = ".." := fun h => hl (h ▸ List.mem_cons_self s rest)
      have hrest : ".." ∉ rest := fun h => hl (List.mem_cons_of_mem s h)
      rw [resolveSegs, if_neg hs]
      by_cases hdot : s = "." ∨ s = ""
      · rw [if_pos hdot]
        exact ih acc hrest
      · rw [if_neg hdot]
        exact (List.prefix_append acc [s]).trans (ih (acc ++ [s]) hrest)

theorem chainT_removed (rest : List String) :
    ∀ (path : List String) (n : String),
      (walkPost path (chainT (n :: rest))).filterMap emptySel =
        [path ++ n :: rest] := by
  induction rest with
  | nil =>
      intro path n
      simp [chainT, walkPost, names, emptySel]
  | cons m rest' ih =>
      intro path n
      have hnames : names (chainT (m :: rest')) = [m] := by
        simp only [chainT, names]
      rw [show chainT (n :: m :: rest') =
        .fcons n [] (chainT (m :: rest')) .fnil from rfl]
      rw [show walkPost path (.fcons n [] (chainT (m :: rest')) .fnil) =
        walkPost (path ++ [n]) (chainT (m :: rest')) ++
          [(path ++ [n], names (chainT (m :: rest')), [])] ++
          walkPost path .fnil from rfl]
      rw [hnames]
      rw [show walkPost path FTree.fnil = [] from rfl]
      rw [List.filterMap_append, List.filterMap_append, ih (path ++ [n]) m]
      simp [emptySel]

theorem filterLines_map_singleton (now : Int) (entries : List (Int × String)) :
    (entries.map (fun e => [e])).filter
        (fun line => decide (now - 30 < headTs line)) =
      (entries.filter (fun e => decide (now - 30 < e.1))).map (fun e => [e]) := by
  induction entries with
  | nil => rfl
  | cons e rest ih =>
      by_cases h : now - 30 < e.1 <;>
        simp [List.filter_cons, show headTs [e] = e.1 from rfl, h, ih]

theorem cleanup_mem (keep : Finset String) (fs : List (String × Int))
    (p : String) (m : Int) :
    (p, m) ∈ (cleanup keep fs).1 ↔ (p, m) ∈ fs ∧ p ∈ keep := by
  induction fs with
  | nil => simp [cleanup]
  | cons hd rest ih =>
      obtain ⟨q, t⟩ := hd
      simp only [cleanup]
      by_cases hq : q ∈ keep
      · rw [if_pos hq]
        simp only [List.mem_cons, ih]
        constructor
        · rintro (h | ⟨h1, h2⟩)
          · injection h with h1 h2
            subst h1
            subst h2
            exact ⟨Or.inl rfl, hq⟩
          · exact ⟨Or.inr h1, h2⟩
        · rintro ⟨h | h1, h2⟩
          · exact Or.inl h
          · exact Or.inr ⟨h1, h2⟩
      · rw [if_neg hq]
        simp only [List.mem_cons, ih]
        constructor
        · rintro ⟨h1, h2⟩
          exact ⟨Or.inr h1, h2⟩
        · rintro ⟨h | h1, h2⟩
          · injection h with h1 _
            subst h1
            exact absurd h2 hq
          · exact ⟨h1, h2⟩

theorem cleanup_logged (keep : Finset String) (fs : List (String × Int))
    (p : String) (m : Int) :
    (p, m) ∈ fs → p ∉ keep →
      ("Removed filed " ++ p ++ " - not found in Dropbox") ∈ (cleanup keep fs).2 := by
  induction fs with
  | nil => intro h _; cases h
  | cons hd rest ih =>
      obtain ⟨q, t⟩ := hd
      intro hmem hnk
      simp only [cleanup]
      rcases List.mem_cons.mp hmem with h | h
      · injection h with h1 h2
        subst h1
        rw [if_neg hnk]
        exact List.mem_cons_self _ _
      · by_cases hq : q ∈ keep
        · rw [if_pos hq]
          exact ih h hnk
        · rw [if_neg hq]
          exact List.mem_cons_of_mem _ (ih h hnk)

/-! Claim theorems. -/

/-- C1, counterexample to the claim as stated.  A file with no local copy
(`fs = []`) whose content fetch answers 500 (non-2xx): the walk logs the
failure and returns normally, no local file is created - but the computed
local path "/sync/a.txt" IS the keep set of the walk's result, contradicting
the claim that it is NOT added. -/
theorem C1_counterexample :
    run "/sync" 100 0 (.econs (.file "/a.txt" ⟨0, 0⟩ 500 "") .enil)
        ⟨[], [], ∅, [], 0⟩ =
      .ok ⟨[], ["/sync"], {"/sync/a.txt"}, ["Error downloading /a.txt"], 1⟩ ∧
    localPathStr "/sync" "/a.txt" ∈ ({"/sync/a.txt"} : Finset String) := by
  decide

/-- C1, amended.  When a file's content fetch returns a non-2xx response and
no local copy existed, `handle_file` logs the failure, creates no local
file, and the walk proceeds with the remaining entries - but the local path
IS added to the keep set regardless of the failure (the source's
`return {str(local_path)}` sits outside the `try` block). -/
theorem C1_failed_download :
    ∀ (root : String) (now tz : Int) (st : St) (pd : String) (cm : DTime)
      (status : Nat) (content : String) (rest : R),
      ¬ (200 ≤ status ∧ status ≤ 299) →
      fsLookup st.fs (localPathStr root pd) = none →
      (handle_file root now tz st pd cm status content).fs = st.fs ∧
      (handle_file root now tz st pd cm status content).log =
        st.log ++ ["Error downloading " ++ pd] ∧
      localPathStr root pd ∈ (handle_file root now tz st pd cm status content).keep ∧
      run root now tz (.econs (.file pd cm status content) rest) st =
        run root now tz rest (handle_file root now tz st pd cm status content) := by
  intro root now tz st pd cm status content rest hcl hl
  have hs : ¬ status = 200 := fun e => hcl (by subst e; exact ⟨by norm_num, by norm_num⟩)
  have hnd : needs_download tz st.fs (localPathStr root pd) cm = true := by
    simp [needs_download, hl]
  have hdl : download_file pd status content = none := by
    simp [download_file, hs]
  have hf : handle_file root now tz st pd cm status content =
      { st with dirs := pushDir st.dirs (parentStr (localPathStr root pd)),
                log := st.log ++ ["Error downloading " ++ pd],
                downloads := st.downloads + 1,
                keep := st.keep ∪ {localPathStr root pd} } := by
    unfold handle_file
    simp [hnd, hdl]
  refine ⟨by rw [hf], by rw [hf], ?_, by simp only [run]⟩
  rw [hf]
  exact Finset.mem_union_right _ (Finset.mem_singleton_self _)

/-- C1 witness: the amended theorem applied at a concrete failing fetch. -/
theorem C1_witness :
    (¬ (200 ≤ 500 ∧ 500 ≤ 299)) ∧
    fsLookup ([] : List (String × Int)) (localPathStr "/sync" "/a.txt") = none ∧
    localPathStr "/sync" "/a.txt" ∈
      (handle_file "/sync" 100 0 ⟨[], [], ∅, [], 0⟩ "/a.txt" ⟨0, 0⟩ 500 "").keep :=
  ⟨by decide, by decide,
    (C1_failed_download "/sync" 100 0 ⟨[], [], ∅, [], 0⟩ "/a.txt" ⟨0, 0⟩ 500 ""
      .enil (by decide) (by decide)).2.2.1⟩

/-- C2, counterexample to the claim as stated.  A remote `path_display`
containing a `..` segment: the computed local path for root "/home/sync" is
"/home/sync/../evil.txt", which resolves to /home/evil.txt - OUTSIDE the
sync root - and `handle_file` writes the file at that escaping path (no
rejection or sanitization exists in the code). -/
theorem C2_counterexample :
    resolvedLocalPath ["home", "sync"] "/../evil.txt" = ["home", "evil.txt"] ∧
    ¬ (["home", "sync"] <+: ["home", "evil.txt"]) ∧
    (handle_file "/home/sync" 100 0 ⟨[], [], ∅, [], 0⟩ "/../evil.txt"
        ⟨0, 0⟩ 200 "x").fs = [("/home/sync/../evil.txt", 100)] := by
  decide

/-- C2, amended.  The computed local path (sync root joined with the remote
path stripped of leading slashes) resolves underneath the sync root for
every remote path whose relative portion contains no `..` segment; the code
does not sanitize `..`, so a `path_display` containing `..` segments can
escape the root (see the counterexample). -/
theorem C2_path_resolution :
    ∀ (rootSegs : List String) (path_display : String),
      ".." ∉ pathSegments path_display →
      rootSegs <+: resolvedLocalPath rootSegs path_display :=
  fun rootSegs _ h => resolveSegs_extends _ rootSegs h

/-- C2 witness: the amended theorem applied to a concrete dot-free path. -/
theorem C2_witness :
    (".." ∉ pathSegments "/docs/a.txt") ∧
    ["home", "sync"] <+: resolvedLocalPath ["home", "sync"] "/docs/a.txt" :=
  ⟨by decide, C2_path_resolution ["home", "sync"] "/docs/a.txt" (by decide)⟩

/-- C3, counterexample to the claim as stated.  Chain a/b/c with no files:
the single bottom-up pass removes only the deepest directory a/b/c.  The
walk captured a/b's listing (subdirs = ["c"]) before c was removed, so a/b -
which after c's removal contains neither files nor subdirectories - is NOT
removed: an empty-but-stale directory remains after the pass. -/
theorem C3_counterexample :
    delete_empty_folders
        (.fcons "a" [] (.fcons "b" [] (.fcons "c" [] .fnil .fnil) .fnil) .fnil) =
      [["a", "b", "c"]] ∧
    (["a", "b"], ["c"], ([] : List String)) ∈
      walkPost []
        (.fcons "a" [] (.fcons "b" [] (.fcons "c" [] .fnil .fnil) .fnil) .fnil) ∧
    ["a", "b"] ∉ delete_empty_folders
        (.fcons "a" [] (.fcons "b" [] (.fcons "c" [] .fnil .fnil) .fnil) .fnil) := by
  decide

/-- C3, amended.  The single bottom-up pass removes exactly the directories
that contained neither files nor subdirectories when they were scanned (in
the tree as the pass found it); it does not cascade: in a multi-level chain
of directories holding no files, exactly one directory - the deepest - is
removed per pass. -/
theorem C3_single_pass :
    (∀ (t : FTree) (p : List String),
        p ∈ delete_empty_folders t ↔
          (p, ([] : List String), ([] : List String)) ∈ walkPost [] t) ∧
    (∀ (n : String) (rest : List String),
        delete_empty_folders (chainT (n :: rest)) = [n :: rest]) := by
  constructor
  · intro t p
    constructor
    · intro hp
      simp only [delete_empty_folders, List.mem_filterMap] at hp
      obtain ⟨⟨w1, w2, w3⟩, hw, hsel⟩ := hp
      simp only [emptySel] at hsel
      split at hsel
      · next hcond =>
          injection hsel with h1
          obtain ⟨h2, h3⟩ := hcond
          subst h1
          subst h2
          subst h3
          exact hw
      · cases hsel
    · intro hw
      simp only [delete_empty_folders, List.mem_filterMap]
      exact ⟨(p, [], []), hw, by simp [emptySel]⟩
  · intro n rest
    have h := chainT_removed rest [] n
    simpa [delete_empty_folders] using h

/-- C3 witness: the amended characterization applied at a concrete tree and
a concrete two-level chain. -/
theorem C3_witness :
    (["x"] ∈ delete_empty_folders (.fcons "x" [] .fnil .fnil) ↔
      (["x"], ([] : List String), ([] : List String)) ∈
        walkPost [] (.fcons "x" [] .fnil .fnil)) ∧
    delete_empty_folders (chainT ("a" :: ["b"])) = ["a" :: ["b"]] :=
  ⟨C3_single_pass.1 (.fcons "x" [] .fnil .fnil) ["x"],
    C3_single_pass.2 "a" ["b"]⟩

/-- C4 (confirmed).  The freshness decision: no local copy forces a
download; with a local copy of mtime `m`, a download happens iff the remote
`client_modified` instant is strictly later than `m`; and the decision is
independent of the local timezone offset and depends on the remote
timestamp only through the absolute instant it denotes (so timezone-offset
inputs cannot produce spurious downloads or skips). -/
theorem C4_freshness :
    ∀ (tz : Int) (fs : List (String × Int)) (lp : String) (cm : DTime),
      (fsLookup fs lp = none → needs_download tz fs lp cm = true) ∧
      (∀ m : Int, fsLookup fs lp = some m →
          (needs_download tz fs lp cm = true ↔ m < cm.instant)) ∧
      (∀ tz' : Int, needs_download tz fs lp cm = needs_download tz' fs lp cm) ∧
      (∀ cm' : DTime, cm.instant = cm'.instant →
          needs_download tz fs lp cm = needs_download tz fs lp cm') := by
  intro tz fs lp cm
  refine ⟨?_, ?_, ?_, ?_⟩
  · intro h
    simp [needs_download, h]
  · intro m h
    simp only [needs_download, h, local_aware, DTime.instant, decide_eq_true_eq]
    omega
  · intro tz'
    cases h : fsLookup fs lp with
    | none => simp [needs_download, h]
    | some m =>
        simp only [needs_download, h, local_aware, DTime.instant]
        exact decide_eq_decide.mpr (by omega)
  · intro cm' hinst
    cases h : fsLookup fs lp with
    | none => simp [needs_download, h]
    | some m =>
        simp only [needs_download, h, local_aware, DTime.instant]
        simp only [DTime.instant] at hinst
        exact decide_eq_decide.mpr (by omega)

/-- C4 witness: the freshness theorem applied at a present local copy. -/
theorem C4_witness :
    (fsLookup [("/r/a.txt", 5)] "/r/a.txt" = some 5) ∧
    (needs_download 3 [("/r/a.txt", 5)] "/r/a.txt" ⟨7, 0⟩ = true ↔
      5 < DTime.instant ⟨7, 0⟩) :=
  ⟨by decide, (C4_freshness 3 [("/r/a.txt", 5)] "/r/a.txt" ⟨7, 0⟩).2.1 5 (by decide)⟩

/-- C5 (confirmed).  A non-2xx response to a listing or continuation page is
fatal: the walk logs `"Download folder error - <status>: <body>"` and
aborts by raising `DropboxAPIError` (the `apiError` result), and the main
flow propagates that abort without ever running the cleanup pass. -/
theorem C5_listing_error_fatal :
    (∀ (root : String) (now tz : Int) (st : St) (status : Nat) (body : String)
        (entries rest : R), ¬ (200 ≤ status ∧ status ≤ 299) →
        run root now tz (.pcons status body entries rest) st =
          .apiError { st with log := st.log ++
            ["Download folder error - " ++ toString status ++ ": " ++ body] }) ∧
    (∀ (root : String) (now tz : Int) (tree : R) (st0 st : St),
        run root now tz tree st0 = .apiError st →
        runMain root now tz tree st0 = .apiError st) := by
  constructor
  · intro root now tz st status body entries rest h
    have hs : ¬ status = 200 := fun e => h (by subst e; exact ⟨by norm_num, by norm_num⟩)
    simp [run, hs]
  · intro root now tz tree st0 st h
    simp [runMain, h]

/-- C5 witness: a concrete 409 listing response aborts the run with the
logged status and body, and the main flow skips cleanup. -/
theorem C5_witness :
    (¬ (200 ≤ 409 ∧ 409 ≤ 299)) ∧
    run "/r" 0 0 (.pcons 409 "err" .enil .pnil) ⟨[], [], ∅, [], 0⟩ =
      .apiError { St.mk [] [] ∅ [] 0 with log := ([] : List String) ++
        ["Download folder error - " ++ toString 409 ++ ": " ++ "err"] } ∧
    runMain "/r" 0 0 (.pcons 409 "err" .enil .pnil) ⟨[], [], ∅, [], 0⟩ =
      .apiError ⟨[], [], ∅, ["Download folder error - 409: err"], 0⟩ := by
  refine ⟨by decide, ?_, ?_⟩
  · exact C5_listing_error_fatal.1 "/r" 0 0 ⟨[], [], ∅, [], 0⟩ 409 "err" .enil .pnil
      (by decide)
  · exact C5_listing_error_fatal.2 "/r" 0 0 (.pcons 409 "err" .enil .pnil)
      ⟨[], [], ∅, [], 0⟩ ⟨[], [], ∅, ["Download folder error - 409: err"], 0⟩
      (by decide)

/-- C6 (confirmed).  The cleanup pass deletes exactly the files whose full
path string is not in the keep set: a file survives iff it was present and
its path is a member of the keep set, each deletion is logged, and on the
concrete tree {a, b, c} with keep set {a, b} exactly c is deleted. -/
theorem C6_cleanup_exact :
    (∀ (keep : Finset String) (fs : List (String × Int)) (p : String) (m : Int),
        (p, m) ∈ (cleanup keep fs).1 ↔ (p, m) ∈ fs ∧ p ∈ keep) ∧
    (∀ (keep : Finset String) (fs : List (String × Int)) (p : String) (m : Int),
        (p, m) ∈ fs → p ∉ keep →
        ("Removed filed " ++ p ++ " - not found in Dropbox") ∈ (cleanup keep fs).2) ∧
    cleanup {"/r/a", "/r/b"} [("/r/a", 1), ("/r/b", 2), ("/r/c", 3)] =
      ([("/r/a", 1), ("/r/b", 2)], ["Removed filed /r/c - not found in Dropbox"]) :=
  ⟨cleanup_mem, cleanup_logged, by decide⟩

/-- C6 witness: the membership law and the deletion log applied at concrete
inputs. -/
theorem C6_witness :
    ((("/r/x", 5) ∈ (cleanup {"/r/a"} [("/r/x", 5)]).1) ↔
      (("/r/x", 5) ∈ ([("/r/x", 5)] : List (String × Int)) ∧
        "/r/x" ∈ ({"/r/a"} : Finset String))) ∧
    ("Removed filed /r/x - not found in Dropbox") ∈
      (cleanup {"/r/a"} [("/r/x", 5)]).2 :=
  ⟨C6_cleanup_exact.1 {"/r/a"} [("/r/x", 5)] "/r/x" 5,
    C6_cleanup_exact.2.1 {"/r/a"} [("/r/x", 5)] "/r/x" 5 (by decide) (by decide)⟩

/-- C7 (confirmed).  On a well-formed log (one event per line), `prune_log`
retains exactly the lines whose leading timestamp is strictly newer than
now minus 30 days, in their original order; in particular entries aged 40
and 31 days are removed and entries aged 20 days and 1 day are retained. -/
theorem C7_prune_retention :
    (∀ (now : Int) (entries : List (Int × String)),
        prune_log now ⟨entries.map (fun e => [e]), true⟩ =
          ⟨(entries.filter (fun e => decide (now - 30 < e.1))).map (fun e => [e]),
            false⟩) ∧
    (∀ now : Int, prune_log now
        ⟨[[(now - 40, "a")], [(now - 31, "b")], [(now - 20, "c")], [(now - 1, "d")]],
          true⟩ =
        ⟨[[(now - 20, "c")], [(now - 1, "d")]], false⟩) := by
  constructor
  · intro now entries
    simp only [prune_log, filterLines_map_singleton]
  · intro now
    have h1 : ¬ (now - 30 < now - 40) := by omega
    have h2 : ¬ (now - 30 < now - 31) := by omega
    have h3 : now - 30 < now - 20 := by omega
    have h4 : now - 30 < now - 1 := by omega
    simp [prune_log, List.filter_cons, headTs, h1, h2, h3, h4]

/-- C8, counterexample to the claim as stated.  A one-file remote tree on
which the first run (at instant 10) is fully successful - every listing
page and the file fetch answer 200, the file is downloaded and logged
"Saved" - but whose `client_modified` instant (50) lies in the future of
the run.  With no remote changes, the second run (at instant 20) finds the
local mtime 10 strictly older than the remote instant 50, so it does NOT
take the "up to date" branch: it performs a download again
(`downloads = 1`, the file is rewritten with mtime 20), refuting the claim
that a second run after a successful run always performs zero downloads. -/
theorem C8_counterexample :
    run "/r" 10 0
        (.pcons 200 "" (.econs (.file "/a.txt" ⟨50, 0⟩ 200 "x") .enil) .pnil)
        ⟨[], [], ∅, [], 0⟩ =
      .ok ⟨[("/r/a.txt", 10)], ["/r"], {"/r/a.txt"}, ["Saved /r/a.txt"], 1⟩ ∧
    run "/r" 20 0
        (.pcons 200 "" (.econs (.file "/a.txt" ⟨50, 0⟩ 200 "x") .enil) .pnil)
        ⟨[("/r/a.txt", 10)], ["/r"], ∅, [], 0⟩ =
      .ok ⟨[("/r/a.txt", 20)], ["/r"], {"/r/a.txt"}, ["Saved /r/a.txt"], 1⟩ := by
  decide

/-- C8, amended.  Idempotence holds with one proviso the counterexample
forces: after a fully successful run (every page and every fetch answers
200) in which additionally no remote `client_modified` lies in the future
of the run's write instant, a second run over the unchanged remote tree,
against the file system the first run left, performs zero download
attempts and returns a keep set identical to the first run's.  A
future-stamped file is re-downloaded on every run. -/
theorem C8_idempotent :
    ∀ (root : String) (now1 now2 tz1 tz2 : Int) (fs0 : List (String × Int))
      (dirs0 : List String) (r : R), goodR now1 r = true →
      ∃ st1 st2,
        run root now1 tz1 r ⟨fs0, dirs0, ∅, [], 0⟩ = .ok st1 ∧
        run root now2 tz2 r ⟨st1.fs, st1.dirs, ∅, [], 0⟩ = .ok st2 ∧
        st2.downloads = 0 ∧ st2.keep = st1.keep := by
  intro root now1 now2 tz1 tz2 fs0 dirs0 r hg
  obtain ⟨st1, h1, _, hsat, hk1⟩ := run_good root now1 tz1 r ⟨fs0, dirs0, ∅, [], 0⟩ hg
  obtain ⟨st2, h2, _, hd2, hk2⟩ :=
    run_sat root now2 tz2 r ⟨st1.fs, st1.dirs, ∅, [], 0⟩ (goodR_pagesOk hg) hsat
  refine ⟨st1, st2, h1, h2, hd2, ?_⟩
  rw [hk2, hk1]

/-- C8 witness: the amended idempotence theorem at a concrete one-file tree
whose timestamp is in the run's past. -/
theorem C8_witness :
    goodR 10 (.pcons 200 "" (.econs (.file "/a.txt" ⟨5, 0⟩ 200 "hi") .enil) .pnil)
        = true ∧
    (∃ st1 st2,
      run "/r" 10 0 (.pcons 200 "" (.econs (.file "/a.txt" ⟨5, 0⟩ 200 "hi") .enil) .pnil)
          ⟨[], [], ∅, [], 0⟩ = .ok st1 ∧
      run "/r" 20 0 (.pcons 200 "" (.econs (.file "/a.txt" ⟨5, 0⟩ 200 "hi") .enil) .pnil)
          ⟨st1.fs, st1.dirs, ∅, [], 0⟩ = .ok st2 ∧
      st2.downloads = 0 ∧ st2.keep = st1.keep) :=
  ⟨by decide,
    C8_idempotent "/r" 10 20 0 0 [] []
      (.pcons 200 "" (.econs (.file "/a.txt" ⟨5, 0⟩ 200 "hi") .enil) .pnil)
      (by decide)⟩

/-- C9 (code bug).  The claim that every logged event occupies its own line
fails right after `prune_log`: the rewrite `"\n".join(lines)` drops the
trailing newline, so the next `write_log` append lands on the same physical
line as the last retained entry.  Concretely: prune a log whose fresh entry
is (95, "first") at now = 100, then append (100, "second"): the file ends
up with a single line carrying BOTH events. -/
theorem C9_prune_breaks_line_format :
    write_log 100 "second" (prune_log 100 ⟨[[(95, "first")], [(50, "old")]], true⟩) =
      ⟨[[(95, "first"), (100, "second")]], true⟩ ∧
    (write_log 100 "second"
        (prune_log 100 ⟨[[(95, "first")], [(50, "old")]], true⟩)).lines.length = 1 := by
  decide

/-- C10 (confirmed).  When the sync root itself contains no files and no
subdirectories at the start of the empty-directory pass, the pass removes
the sync root directory itself (`os.walk(root, topdown=False)` yields the
root with empty listings and `os.rmdir` fires on it). -/
theorem C10_empty_root_removed :
    ∀ name : String,
      delete_empty_folders (.fcons name [] .fnil .fnil) = [[name]] := by
  intro name
  simp [delete_empty_folders, walkPost, names, emptySel]

end FolderSync
